import Mathlib

/-
Verification of the IIC_CRC_Checker core: the CRC16-CCITT engine
(reflected polynomial 0x8408) and the hex-text decoder feeding it,
embedded from src/01.Python/IIC_CRC.py.
-/

namespace IICCRC

/-- Polynomial constant of CRC16_CCITT (IIC_CRC.py line 66): 0x8408, the
bit-reversed form of the standard polynomial 0x1021. -/
def POLY_Reverse : Nat := 0x8408

/-- One bit-step of the CRC loop (IIC_CRC.py lines 73 to 77): when the low
bit of the register xored with the low bit of the data value is nonzero,
the register is shifted right and xored with the polynomial; otherwise it
is only shifted right. -/
def crcBitStep (reg d : Nat) : Nat :=
  if ((reg &&& 0x0001) ^^^ (d &&& 0x0001)) ≠ 0 then (reg >>> 1) ^^^ POLY_Reverse
  else reg >>> 1

/-- Inner loop of CRC16_CCITT (IIC_CRC.py lines 72 to 78): n bit-steps, the
data value shifted right once after each step. -/
def crcByteLoop : Nat → Nat → Nat → Nat
  | 0, reg, _ => reg
  | Nat.succ n, reg, d => crcByteLoop n (crcBitStep reg d) (d >>> 1)

/-- CRC16_CCITT from IIC_CRC.py lines 64 to 80: fold the 8-bit-step inner
loop over the bytes of the input (each masked with 0xFF as in line 70),
starting from the Initial parameter, and mask the final register value to
16 bits (line 80). -/
def CRC16_CCITT (data : List Nat) (Initial : Nat) : Nat :=
  (data.foldl (fun reg byte => crcByteLoop 8 reg (byte &&& 0xFF)) Initial) &&& 0xFFFF

/-- Reference bit-step exactly as the spec words it: mix = (register AND 1)
XOR bit; when mix is 1 the register becomes (register >> 1) XOR 0x8408,
otherwise register >> 1. -/
def refBitStep (reg bit : Nat) : Nat :=
  if ((reg &&& 1) ^^^ bit) = 1 then (reg >>> 1) ^^^ 0x8408 else reg >>> 1

/-- Reference per-byte processing as the spec words it: 8 bit-steps, fed the
bits of the byte least-significant first. -/
def refByte (reg d : Nat) : Nat :=
  (List.range 8).foldl (fun r i => refBitStep r ((d >>> i) &&& 1)) reg

/-- Reference reflected CRC16-CCITT algorithm as the spec words it: process
the bytes in sequence order and return the final register masked to
16 bits. -/
def crcRef (data : List Nat) (initial : Nat) : Nat :=
  (data.foldl (fun r b => refByte r b) initial) &&& 0xFFFF

/-- Register values after each of n bit-steps of the inner loop, in order:
the trace of the mutations of Initial in IIC_CRC.py lines 72 to 78. -/
def crcBitStates : Nat → Nat → Nat → List Nat
  | 0, _, _ => []
  | Nat.succ n, reg, d => crcBitStep reg d :: crcBitStates n (crcBitStep reg d) (d >>> 1)

/-- Register values after every individual bit-step of a whole CRC16_CCITT
computation, in order. -/
def crcStates : List Nat → Nat → List Nat
  | [], _ => []
  | b :: bs, reg =>
      crcBitStates 8 reg (b &&& 0xFF) ++ crcStates bs (crcByteLoop 8 reg (b &&& 0xFF))

/-- Boundedness of a list of register values by the 16-bit maximum. -/
def allBounded (l : List Nat) : Prop := ∀ r ∈ l, r ≤ 0xFFFF

/-- Error taxonomy of hex_to_bytes: the explicit odd-length ValueError of
IIC_CRC.py line 102, and the ValueError raised by bytes.fromhex at
line 105. -/
inductive DecodeError where
  | invalidLength
  | invalidCharacter
deriving DecidableEq

/-- Whitespace stripping of hex_to_bytes (IIC_CRC.py line 98): the three
replace calls remove every space, newline and tab character. -/
def stripWS (s : List Char) : List Char :=
  s.filter (fun c => !(c == ' ' || c == '\n' || c == '\t'))

/-- Hex digit value of a character, as in the digit table consulted by
CPython bytes.fromhex: 0 to 9, a to f, A to F; anything else is invalid. -/
def hexVal (c : Char) : Option Nat :=
  if '0' ≤ c ∧ c ≤ '9' then some (c.toNat - '0'.toNat)
  else if 'a' ≤ c ∧ c ≤ 'f' then some (c.toNat - 'a'.toNat + 10)
  else if 'A' ≤ c ∧ c ≤ 'F' then some (c.toNat - 'A'.toNat + 10)
  else none

/-- ASCII whitespace as recognised by CPython bytes.fromhex: space, tab,
newline, carriage return, vertical tab, form feed. -/
def isPyWS (c : Char) : Bool :=
  c == ' ' || c == '\t' || c == '\n' || c == '\r' || c == '\x0b' || c == '\x0c'

/-- Model of CPython bytes.fromhex (3.7 and later), the conversion called at
IIC_CRC.py line 105: ASCII whitespace is skipped between byte pairs, then
two adjacent hex digits are read per byte; any other character, a
whitespace character splitting a pair, or a lone trailing digit is a
ValueError (modelled as none). -/
def fromhex : List Char → Option (List Nat)
  | [] => some []
  | c :: cs =>
    if isPyWS c then fromhex cs
    else
      match hexVal c, cs with
      | some hi, c2 :: cs2 =>
        match hexVal c2 with
        | some lo => (fromhex cs2).map (fun bs => (hi * 16 + lo) :: bs)
        | none => none
      | _, _ => none

/-- hex_to_bytes from IIC_CRC.py lines 84 to 105: strip space, newline and
tab; raise the length ValueError when the stripped length is odd; otherwise
convert with bytes.fromhex, whose failure is the invalid-character
error. -/
def hex_to_bytes (s : List Char) : Except DecodeError (List Nat) :=
  let stripped := stripWS s
  if stripped.length % 2 ≠ 0 then Except.error DecodeError.invalidLength
  else
    match fromhex stripped with
    | some bs => Except.ok bs
    | none => Except.error DecodeError.invalidCharacter

/-- Default-0 hex digit value, used to write down the decoded byte of a
digit pair. -/
def hexValD (c : Char) : Nat := (hexVal c).getD 0

/-- Bytes of a list of hex digits taken in adjacent pairs, most-significant
nibble first: the shape the spec promises for a successful decode. -/
def pairsVal : List Char → List Nat
  | a :: b :: rest => (hexValD a * 16 + hexValD b) :: pairsVal rest
  | _ => []

/-- Sample input of the spec: the default text of the first input row. -/
def strVec : List Char := "34 1E 08 AC 0D".data

/-- Sample input with tabs and newlines mixed in. -/
def strVecWS : List Char := "34\t1E\n08 AC\t0D".data

/-- Known-vector input of the application-note regression. -/
def strC6 : List Char := "341E08AC0D".data

/-- Odd-length sample input. -/
def strOdd : List Char := "ABC".data

/-- Input whose stripped form keeps two carriage returns between hex
pairs. -/
def strCR : List Char := "AB\r\rCD".data

/-- Even-length input with a non-hex, non-whitespace character. -/
def strBad : List Char := "1G".data

/-- Input that is all strippable whitespace. -/
def strBlank : List Char := " \t\n".data

set_option maxRecDepth 8000

lemma and_one_le_one (n : Nat) : n &&& 1 ≤ 1 := Nat.and_le_right

/-- Masking a value below 256 with 0xFF is the identity. -/
lemma and_FF_of_lt (n : Nat) (h : n < 256) : n &&& 0xFF = n := by
  have h2 := Nat.and_pow_two_sub_one_eq_mod n 8
  norm_num at h2
  omega

/-- Masking a 16-bit value with 0xFFFF is the identity. -/
lemma and_FFFF_of_le (n : Nat) (h : n ≤ 0xFFFF) : n &&& 0xFFFF = n := by
  have h2 := Nat.and_pow_two_sub_one_eq_mod n 16
  norm_num at h2
  omega

/-- Source bit-step and reference bit-step agree: the nonzero test of the
source equals the equals-one test of the spec, both xor operands being
single bits. -/
lemma crcBitStep_eq_ref (reg d : Nat) : crcBitStep reg d = refBitStep reg (d &&& 1) := by
  have ha := and_one_le_one reg
  have hb := and_one_le_one d
  unfold crcBitStep refBitStep POLY_Reverse
  rcases Nat.le_one_iff_eq_zero_or_eq_one.mp ha with h | h <;>
    rcases Nat.le_one_iff_eq_zero_or_eq_one.mp hb with h2 | h2 <;>
      simp [h, h2]

/-- The source inner loop, which shifts the data value as it goes, equals
the fold that extracts bit i of the original data value at step i. -/
lemma crcByteLoop_eq_refFold :
    ∀ (n reg d : Nat),
      crcByteLoop n reg d
        = (List.range n).foldl (fun r i => refBitStep r ((d >>> i) &&& 1)) reg := by
  intro n
  induction n with
  | zero => intro reg d; rfl
  | succ n ih =>
    intro reg d
    have hfun :
        (fun (r i : Nat) => refBitStep r (((d >>> 1) >>> i) &&& 1))
          = fun (r i : Nat) => refBitStep r ((d >>> Nat.succ i) &&& 1) := by
      funext r i
      rw [Nat.succ_eq_add_one, Nat.add_comm i 1, Nat.shiftRight_add]
    calc crcByteLoop (Nat.succ n) reg d
        = crcByteLoop n (crcBitStep reg d) (d >>> 1) := rfl
      _ = (List.range n).foldl
            (fun r i => refBitStep r (((d >>> 1) >>> i) &&& 1)) (crcBitStep reg d) :=
          ih (crcBitStep reg d) (d >>> 1)
      _ = (List.range n).foldl
            (fun r i => refBitStep r ((d >>> Nat.succ i) &&& 1))
            (refBitStep reg ((d >>> 0) &&& 1)) := by
          rw [hfun, crcBitStep_eq_ref, Nat.shiftRight_zero]
      _ = (List.range (n + 1)).foldl
            (fun r i => refBitStep r ((d >>> i) &&& 1)) reg := by
          rw [List.range_succ_eq_map]
          simp only [List.foldl_cons, List.foldl_map]

/-- The source inner loop at 8 steps is exactly the per-byte reference
processing. -/
lemma crcByteLoop_eq_refByte (reg d : Nat) : crcByteLoop 8 reg d = refByte reg d :=
  crcByteLoop_eq_refFold 8 reg d

/-- Fold equality between the source byte loop and the reference byte loop,
for byte values below 256. -/
lemma crcFold_eq_refFold (data : List Nat) :
    ∀ initial : Nat, (∀ b ∈ data, b < 256) →
      data.foldl (fun reg byte => crcByteLoop 8 reg (byte &&& 0xFF)) initial
        = data.foldl (fun r b => refByte r b) initial := by
  induction data with
  | nil => intro initial _; rfl
  | cons b bs ih =>
    intro initial hdata
    simp only [List.foldl_cons]
    rw [and_FF_of_lt b (hdata b (List.mem_cons_self b bs)), crcByteLoop_eq_refByte]
    exact ih (refByte initial b) (fun x hx => hdata x (List.mem_cons_of_mem b hx))

/-- C1: for every ByteSequence data and every 16-bit initial value,
CRC16_CCITT(data, initial) equals the reference reflected CRC16-CCITT
algorithm: starting from register = initial, each byte is consumed in
8 bit-steps least-significant bit first, a step xoring the right-shifted
register with 0x8408 exactly when (register AND 1) XOR bit is 1, and the
final register is returned masked to 16 bits. -/
theorem C1_compute_matches_reference (data : List Nat) (initial : Nat)
    (hinit : initial ≤ 0xFFFF) (hdata : ∀ b ∈ data, b < 256) :
    CRC16_CCITT data initial = crcRef data initial := by
  unfold CRC16_CCITT crcRef
  rw [crcFold_eq_refFold data initial hdata]

/-- Witness for C1 at the one-byte input 0xAB with initial 0xFFFF. -/
theorem C1_compute_matches_reference_witness :
    CRC16_CCITT [0xAB] 0xFFFF = crcRef [0xAB] 0xFFFF :=
  C1_compute_matches_reference [0xAB] 0xFFFF (by norm_num) (by decide)

/-- C2: on the empty ByteSequence, CRC16_CCITT returns the initial value
unchanged for every initial value in [0, 0xFFFF]. -/
theorem C2_empty_returns_initial (initial : Nat) (h : initial ≤ 0xFFFF) :
    CRC16_CCITT [] initial = initial := by
  unfold CRC16_CCITT
  simp only [List.foldl_nil]
  exact and_FFFF_of_le initial h

/-- Witness for C2 at initial value 0x1234. -/
theorem C2_empty_returns_initial_witness : CRC16_CCITT [] 0x1234 = 0x1234 :=
  C2_empty_returns_initial 0x1234 (by norm_num)

/-- C6: the known vector decodes to the five documented bytes and its CRC
with initial value 0xFFFF is 0xBFD2, which is one of the two byte-order
renderings named by the spec. -/
theorem C6_known_vector :
    hex_to_bytes strC6 = Except.ok [0x34, 0x1E, 0x08, 0xAC, 0x0D] ∧
    CRC16_CCITT [0x34, 0x1E, 0x08, 0xAC, 0x0D] 0xFFFF = 0xBFD2 ∧
    (CRC16_CCITT [0x34, 0x1E, 0x08, 0xAC, 0x0D] 0xFFFF = 0xD2BF ∨
      CRC16_CCITT [0x34, 0x1E, 0x08, 0xAC, 0x0D] 0xFFFF = 0xBFD2) :=
  ⟨rfl, by decide, Or.inr (by decide)⟩

/-- One bit-step keeps the register within 16 bits. -/
lemma crcBitStep_le (reg d : Nat) (h : reg ≤ 0xFFFF) : crcBitStep reg d ≤ 0xFFFF := by
  have hp : (2 : Nat) ^ 16 = 65536 := by norm_num
  have hs : reg >>> 1 ≤ reg := by
    rw [Nat.shiftRight_eq_div_pow]
    exact Nat.div_le_self reg (2 ^ 1)
  unfold crcBitStep POLY_Reverse
  split
  · have h1 : reg >>> 1 < 2 ^ 16 := by omega
    have h2 : (0x8408 : Nat) < 2 ^ 16 := by norm_num
    have h3 := Nat.xor_lt_two_pow h1 h2
    omega
  · omega

/-- The inner loop keeps the register within 16 bits. -/
lemma crcByteLoop_le : ∀ (n reg d : Nat), reg ≤ 0xFFFF → crcByteLoop n reg d ≤ 0xFFFF := by
  intro n
  induction n with
  | zero => intro reg d h; exact h
  | succ n ih => intro reg d h; exact ih (crcBitStep reg d) (d >>> 1) (crcBitStep_le reg d h)

/-- Every register value traced through the inner loop is within 16 bits. -/
lemma crcBitStates_le :
    ∀ (n reg d : Nat), reg ≤ 0xFFFF → allBounded (crcBitStates n reg d) := by
  intro n
  induction n with
  | zero => intro reg d _ r hr; cases hr
  | succ n ih =>
    intro reg d h r hr
    rcases List.mem_cons.mp hr with h2 | h2
    · rw [h2]; exact crcBitStep_le reg d h
    · exact ih (crcBitStep reg d) (d >>> 1) (crcBitStep_le reg d h) r h2

/-- The inner loop lands on the last traced register value. -/
lemma crcByteLoop_eq_getLast :
    ∀ (n reg d : Nat), crcByteLoop n reg d = (crcBitStates n reg d).getLastD reg := by
  intro n
  induction n with
  | zero => intro reg d; rfl
  | succ n ih =>
    intro reg d
    show crcByteLoop n (crcBitStep reg d) (d >>> 1)
        = (crcBitStep reg d :: crcBitStates n (crcBitStep reg d) (d >>> 1)).getLastD reg
    rw [ih (crcBitStep reg d) (d >>> 1), List.getLastD_cons]

/-- C7: during every CRC16_CCITT computation whose initial value lies in
[0, 0xFFFF], the register value after every individual bit-step lies in
[0, 0xFFFF]; no step sets a bit above bit 15. -/
theorem C7_register_always_16_bits (data : List Nat) (initial : Nat)
    (h : initial ≤ 0xFFFF) : allBounded (crcStates data initial) := by
  induction data generalizing initial with
  | nil => intro r hr; cases hr
  | cons b bs ih =>
    intro r hr
    rcases List.mem_append.mp hr with h2 | h2
    · exact crcBitStates_le 8 initial (b &&& 0xFF) h r h2
    · exact ih (crcByteLoop 8 initial (b &&& 0xFF))
        (crcByteLoop_le 8 initial (b &&& 0xFF) h) r h2

/-- Witness for C7 at the two-byte input [0x34, 0xAC] with initial
0xFFFF. -/
theorem C7_register_always_16_bits_witness : allBounded (crcStates [0x34, 0xAC] 0xFFFF) :=
  C7_register_always_16_bits [0x34, 0xAC] 0xFFFF (by norm_num)

/-- The byte-level fold keeps the register within 16 bits. -/
lemma crcFold_le (data : List Nat) :
    ∀ initial : Nat, initial ≤ 0xFFFF →
      data.foldl (fun reg byte => crcByteLoop 8 reg (byte &&& 0xFF)) initial ≤ 0xFFFF := by
  induction data with
  | nil => intro initial h; exact h
  | cons b bs ih =>
    intro initial h
    exact ih (crcByteLoop 8 initial (b &&& 0xFF))
      (crcByteLoop_le 8 initial (b &&& 0xFF) h)

/-- C10: CRC chaining homomorphism: for every pair of ByteSequences and
every 16-bit initial value, the CRC of the concatenation equals the CRC of
the second sequence seeded with the CRC of the first. -/
theorem C10_chaining (a b : List Nat) (initial : Nat) (h : initial ≤ 0xFFFF) :
    CRC16_CCITT (a ++ b) initial = CRC16_CCITT b (CRC16_CCITT a initial) := by
  unfold CRC16_CCITT
  rw [List.foldl_append,
    and_FFFF_of_le (a.foldl (fun reg byte => crcByteLoop 8 reg (byte &&& 0xFF)) initial)
      (crcFold_le a initial h)]

/-- Witness for C10 at the inputs [0x12] and [0x34] with initial 0xFFFF. -/
theorem C10_chaining_witness :
    CRC16_CCITT ([0x12] ++ [0x34]) 0xFFFF = CRC16_CCITT [0x34] (CRC16_CCITT [0x12] 0xFFFF) :=
  C10_chaining [0x12] [0x34] 0xFFFF (by norm_num)

/-- Unfolding of fromhex on a leading whitespace character: it is
skipped. -/
lemma fromhex_cons_ws (c : Char) (cs : List Char) (h : isPyWS c = true) :
    fromhex (c :: cs) = fromhex cs := by
  rw [fromhex.eq_def]
  simp [h]

/-- Unfolding of fromhex on a leading pair of hex digits: the decoded byte
is prepended to the rest. -/
lemma fromhex_pair (c c2 : Char) (cs2 : List Char) (hi lo : Nat)
    (h : isPyWS c = false) (h1 : hexVal c = some hi) (h2 : hexVal c2 = some lo) :
    fromhex (c :: c2 :: cs2) = (fromhex cs2).map (fun bs => (hi * 16 + lo) :: bs) := by
  rw [fromhex.eq_def]
  simp [h, h1, h2]

/-- Unfolding of fromhex when the second character of a pair is not a hex
digit: failure. -/
lemma fromhex_pair_bad (c c2 : Char) (cs2 : List Char) (hi : Nat)
    (h : isPyWS c = false) (h1 : hexVal c = some hi) (h2 : hexVal c2 = none) :
    fromhex (c :: c2 :: cs2) = none := by
  rw [fromhex.eq_def]
  simp [h, h1, h2]

/-- Unfolding of fromhex on a leading character that is neither whitespace
nor a hex digit: failure. -/
lemma fromhex_bad1 (c : Char) (cs : List Char)
    (h : isPyWS c = false) (h1 : hexVal c = none) :
    fromhex (c :: cs) = none := by
  rw [fromhex.eq_def]
  simp [h, h1]

/-- Unfolding of fromhex on a lone trailing hex digit: failure. -/
lemma fromhex_single (c : Char) (h : isPyWS c = false) (hi : Nat)
    (h1 : hexVal c = some hi) : fromhex [c] = none := by
  rw [fromhex.eq_def]
  simp [h, h1]

/-- Whitespace characters carry no hex digit value. -/
lemma hexVal_ws_none (c : Char) (h : isPyWS c = true) : hexVal c = none := by
  simp only [isPyWS, Bool.or_eq_true, beq_iff_eq] at h
  rcases h with ((((h | h) | h) | h) | h) | h <;> subst h <;> decide

/-- Hex digits are not whitespace. -/
lemma hexVal_not_ws (c : Char) (h : (hexVal c).isSome) : isPyWS c = false := by
  cases hq : isPyWS c with
  | false => rfl
  | true => rw [hexVal_ws_none c hq] at h; simp at h

/-- On an even-length list of hex digits, fromhex succeeds and returns the
pairwise decoded bytes. -/
lemma fromhex_all_hex :
    ∀ l : List Char, l.length % 2 = 0 → (∀ c ∈ l, (hexVal c).isSome) →
      fromhex l = some (pairsVal l) := by
  intro l
  induction l using pairsVal.induct with
  | case1 a b rest ih =>
    intro hlen hhex
    have ha : (hexVal a).isSome := hhex a (by simp)
    have hb : (hexVal b).isSome := hhex b (by simp)
    obtain ⟨hi, hhi⟩ := Option.isSome_iff_exists.mp ha
    obtain ⟨lo, hlo⟩ := Option.isSome_iff_exists.mp hb
    have hrest : fromhex rest = some (pairsVal rest) := by
      apply ih
      · simp only [List.length_cons] at hlen
        omega
      · intro c hc
        exact hhex c (by simp [hc])
    rw [fromhex_pair a b rest hi lo (hexVal_not_ws a ha) hhi hlo, hrest]
    show some ((hi * 16 + lo) :: pairsVal rest)
        = some ((hexValD a * 16 + hexValD b) :: pairsVal rest)
    simp [hexValD, hhi, hlo]
  | case2 t ht =>
    intro hlen hhex
    cases t with
    | nil => rfl
    | cons c cs =>
      cases cs with
      | nil => simp at hlen
      | cons c2 cs2 => exact (ht c c2 cs2 rfl).elim

/-- Pairwise decoding of an even-length digit list yields half as many
bytes as digits. -/
lemma pairsVal_length :
    ∀ l : List Char, l.length % 2 = 0 → (pairsVal l).length = l.length / 2 := by
  intro l
  induction l using pairsVal.induct with
  | case1 a b rest ih =>
    intro hlen
    simp only [List.length_cons] at hlen ⊢
    rw [pairsVal]
    simp only [List.length_cons]
    rw [ih (by omega)]
    omega
  | case2 t ht =>
    intro hlen
    cases t with
    | nil => rfl
    | cons c cs =>
      cases cs with
      | nil => simp at hlen
      | cons c2 cs2 => exact (ht c c2 cs2 rfl).elim

/-- Byte i of the pairwise decoding combines the digits at offsets 2i and
2i+1, most-significant nibble first. -/
lemma pairsVal_getD :
    ∀ l : List Char, l.length % 2 = 0 → ∀ i : Nat,
      (pairsVal l).getD i 0
        = hexValD (l.getD (2 * i) ' ') * 16 + hexValD (l.getD (2 * i + 1) ' ') := by
  intro l
  induction l using pairsVal.induct with
  | case1 a b rest ih =>
    intro hlen i
    cases i with
    | zero => rfl
    | succ i =>
      have hlen2 : rest.length % 2 = 0 := by
        simp only [List.length_cons] at hlen
        omega
      have e1 : 2 * (i + 1) = 2 * i + 1 + 1 := by ring
      have e2 : 2 * (i + 1) + 1 = 2 * i + 1 + 1 + 1 := by ring
      calc (pairsVal (a :: b :: rest)).getD (i + 1) 0
          = (pairsVal rest).getD i 0 := rfl
        _ = hexValD (rest.getD (2 * i) ' ') * 16 + hexValD (rest.getD (2 * i + 1) ' ') :=
            ih hlen2 i
        _ = hexValD ((a :: b :: rest).getD (2 * (i + 1)) ' ') * 16
              + hexValD ((a :: b :: rest).getD (2 * (i + 1) + 1) ' ') := by
            rw [e2, e1, List.getD_cons_succ, List.getD_cons_succ,
              List.getD_cons_succ, List.getD_cons_succ]
  | case2 t ht =>
    intro hlen i
    cases t with
    | nil => cases i <;> rfl
    | cons c cs =>
      cases cs with
      | nil => simp at hlen
      | cons c2 cs2 => exact (ht c c2 cs2 rfl).elim

/-- A list holding a character that is neither a hex digit nor ASCII
whitespace makes fromhex fail. -/
lemma fromhex_bad_char :
    ∀ l : List Char, (∃ c ∈ l, hexVal c = none ∧ isPyWS c = false) → fromhex l = none := by
  intro l
  induction l using fromhex.induct with
  | case1 =>
    intro h
    obtain ⟨c, hc, _⟩ := h
    exact absurd hc (List.not_mem_nil c)
  | case2 c cs hws ih =>
    intro h
    obtain ⟨c0, hc0, hnone, hnws⟩ := h
    rw [fromhex_cons_ws c cs hws]
    apply ih
    rcases List.mem_cons.mp hc0 with h2 | h2
    · subst h2
      simp [hws] at hnws
    · exact ⟨c0, h2, hnone, hnws⟩
  | case3 c hnws hi c2 cs2 hhi lo hlo ih =>
    intro h
    obtain ⟨c0, hc0, hnone, h0ws⟩ := h
    rw [fromhex_pair c c2 cs2 hi lo (by simpa using hnws) hhi hlo]
    have hrec : fromhex cs2 = none := by
      apply ih
      rcases List.mem_cons.mp hc0 with h2 | h2
      · subst h2
        rw [hhi] at hnone
        exact (Option.some_ne_none hi hnone).elim
      · rcases List.mem_cons.mp h2 with h3 | h3
        · subst h3
          rw [hlo] at hnone
          exact (Option.some_ne_none lo hnone).elim
        · exact ⟨c0, h3, hnone, h0ws⟩
    rw [hrec]
    rfl
  | case4 c hnws hi c2 cs2 hhi hlo =>
    intro _
    exact fromhex_pair_bad c c2 cs2 hi (by simpa using hnws) hhi hlo
  | case5 c cs hnws hno =>
    intro _
    cases hv : hexVal c with
    | none => exact fromhex_bad1 c cs (by simpa using hnws) hv
    | some hi =>
      cases cs with
      | nil => exact fromhex_single c (by simpa using hnws) hi hv
      | cons c2 cs2 => exact (hno hi c2 cs2 hv rfl).elim

/-- Inserting a stripped whitespace character anywhere leaves the stripped
form unchanged. -/
lemma stripWS_insert (u v : List Char) (c : Char)
    (h : c = ' ' ∨ c = '\t' ∨ c = '\n') :
    stripWS (u ++ c :: v) = stripWS (u ++ v) := by
  unfold stripWS
  rw [List.filter_append, List.filter_append, List.filter_cons]
  rcases h with h | h | h <;> subst h <;> simp

/-- hex_to_bytes depends on its input only through the stripped form. -/
lemma hex_to_bytes_congr (s t : List Char) (h : stripWS s = stripWS t) :
    hex_to_bytes s = hex_to_bytes t := by
  unfold hex_to_bytes
  rw [h]

/-- hex_to_bytes succeeds with the bytes fromhex produces when the stripped
length is even. -/
lemma hex_to_bytes_even_ok (s : List Char) (bs : List Nat)
    (hlen : (stripWS s).length % 2 = 0) (h : fromhex (stripWS s) = some bs) :
    hex_to_bytes s = Except.ok bs := by
  unfold hex_to_bytes
  rw [if_neg (by omega), h]

/-- hex_to_bytes raises the invalid-character error when the stripped
length is even and fromhex fails. -/
lemma hex_to_bytes_even_err (s : List Char)
    (hlen : (stripWS s).length % 2 = 0) (h : fromhex (stripWS s) = none) :
    hex_to_bytes s = Except.error DecodeError.invalidCharacter := by
  unfold hex_to_bytes
  rw [if_neg (by omega), h]

/-- hex_to_bytes raises the length error when the stripped length is
odd. -/
lemma hex_to_bytes_odd (s : List Char) (hlen : (stripWS s).length % 2 = 1) :
    hex_to_bytes s = Except.error DecodeError.invalidLength := by
  unfold hex_to_bytes
  rw [if_pos (by omega)]

/-- C3: for every input whose stripped form has even length and consists
only of hex digits, hex_to_bytes succeeds and returns one byte per digit
pair, byte i combining the digits at offsets 2i and 2i+1 with the first
digit as the most-significant nibble; in particular the sample input
decodes to [0x34, 0x1E, 0x08, 0xAC, 0x0D]. -/
theorem C3_decode_valid_hex :
    (∀ s : List Char, (stripWS s).length % 2 = 0 →
      (∀ c ∈ stripWS s, (hexVal c).isSome) →
      hex_to_bytes s = Except.ok (pairsVal (stripWS s)) ∧
      (pairsVal (stripWS s)).length = (stripWS s).length / 2 ∧
      (∀ i, i < (stripWS s).length / 2 →
        (pairsVal (stripWS s)).getD i 0 =
          hexValD ((stripWS s).getD (2 * i) ' ') * 16 +
            hexValD ((stripWS s).getD (2 * i + 1) ' '))) ∧
    hex_to_bytes strVec = Except.ok [0x34, 0x1E, 0x08, 0xAC, 0x0D] := by
  constructor
  · intro s hlen hhex
    exact ⟨hex_to_bytes_even_ok s (pairsVal (stripWS s)) hlen
        (fromhex_all_hex (stripWS s) hlen hhex),
      pairsVal_length (stripWS s) hlen,
      fun i _ => pairsVal_getD (stripWS s) hlen i⟩
  · rfl

/-- Witness for C3 at the sample input. -/
theorem C3_decode_valid_hex_witness :
    hex_to_bytes strVec = Except.ok (pairsVal (stripWS strVec)) :=
  (C3_decode_valid_hex.1 strVec (by decide) (by decide)).1

/-- C4 counterexample: the input AB-CR-CR-CD keeps two carriage returns
after stripping, a character that is not a hex digit, yet hex_to_bytes
succeeds with the bytes [0xAB, 0xCD] instead of failing with the
invalid-character error: bytes.fromhex skips ASCII whitespace between
pairs. -/
theorem C4_counterexample :
    ('\r' ∈ stripWS strCR) ∧ hexVal '\r' = none ∧
    hex_to_bytes strCR = Except.ok [0xAB, 0xCD] :=
  ⟨by decide, rfl, rfl⟩

/-- C4 amended: for every input whose stripped form has even length and
contains a character that is neither a hex digit nor ASCII whitespace,
hex_to_bytes fails with the invalid-character error. -/
theorem C4_invalid_character (s : List Char)
    (hlen : (stripWS s).length % 2 = 0)
    (hbad : ∃ c ∈ stripWS s, hexVal c = none ∧ isPyWS c = false) :
    hex_to_bytes s = Except.error DecodeError.invalidCharacter :=
  hex_to_bytes_even_err s hlen (fromhex_bad_char (stripWS s) hbad)

/-- Witness for the amended C4 at the input 1G. -/
theorem C4_invalid_character_witness :
    hex_to_bytes strBad = Except.error DecodeError.invalidCharacter :=
  C4_invalid_character strBad (by decide) ⟨'G', by decide, by decide, by decide⟩

/-- C5: for every input whose stripped form has odd length, hex_to_bytes
fails with the length error and produces no bytes; ABC is such a
failure. -/
theorem C5_odd_length_error :
    (∀ s : List Char, (stripWS s).length % 2 = 1 →
      hex_to_bytes s = Except.error DecodeError.invalidLength) ∧
    hex_to_bytes strOdd = Except.error DecodeError.invalidLength := by
  constructor
  · intro s h
    exact hex_to_bytes_odd s h
  · rfl

/-- Witness for C5 at the input ABC. -/
theorem C5_odd_length_error_witness :
    hex_to_bytes strOdd = Except.error DecodeError.invalidLength :=
  C5_odd_length_error.1 strOdd (by decide)

/-- C8: hex_to_bytes is insensitive to stripped whitespace: inserting or
removing a space, tab or newline anywhere does not change the result, and
the tab-and-newline variant of the sample input decodes identically to the
space-separated one. -/
theorem C8_whitespace_insensitive :
    (∀ (u v : List Char) (c : Char), c = ' ' ∨ c = '\t' ∨ c = '\n' →
      hex_to_bytes (u ++ c :: v) = hex_to_bytes (u ++ v)) ∧
    hex_to_bytes strVecWS = hex_to_bytes strVec := by
  constructor
  · intro u v c h
    exact hex_to_bytes_congr (u ++ c :: v) (u ++ v) (stripWS_insert u v c h)
  · rfl

/-- Witness for C8 inserting a space between two digits. -/
theorem C8_whitespace_insensitive_witness :
    hex_to_bytes (['A'] ++ ' ' :: ['B']) = hex_to_bytes (['A'] ++ ['B']) :=
  C8_whitespace_insensitive.1 ['A'] ['B'] ' ' (Or.inl rfl)

/-- C9: hex_to_bytes on the empty string, and on any input that is empty
after stripping, succeeds with the empty ByteSequence and raises no
error. -/
theorem C9_empty_ok :
    (∀ s : List Char, stripWS s = [] → hex_to_bytes s = Except.ok []) ∧
    hex_to_bytes [] = Except.ok [] := by
  constructor
  · intro s h
    rw [hex_to_bytes_congr s [] (by rw [h]; rfl)]
    rfl
  · rfl

/-- Witness for C9 at an all-whitespace input. -/
theorem C9_empty_ok_witness : hex_to_bytes strBlank = Except.ok [] :=
  C9_empty_ok.1 strBlank (by decide)

end IICCRC
